import Mathlib

/-!
Verification development for the `deutsche_ferien` Home Assistant integration
(`custom_components/deutsche_ferien/`).  The pure data pipeline of the
repository — the record-normalisation loops of `api.py`, the derived-facts
computation of `coordinator.py`, and the per-day expansion of
`yaml_writer.py` — is shallowly embedded below and its specification claims
are settled as theorems.

Modelling conventions:
* A Python `datetime.date` is represented by its proleptic-Gregorian day
  number (days since 0000-03-01).  Python compares `date` objects by
  (year, month, day) and the code also compares ISO-8601 strings
  (`coordinator.py`, the `heute` pass); on valid dates both orders coincide
  with the day-number order, so all comparisons are day-number comparisons.
  `mkDate` is the standard days-from-civil conversion; `yearOfDays` its
  inverse's year component; `weekday` matches Python's `date.weekday()`
  (Monday = 0).
* A JSON record is a structure whose `Option Date` fields are `none`
  exactly when the corresponding string field is missing or unparsable
  (`date.fromisoformat` raising); api.py drops such records individually.
* `_api_request` returning `None` (HTTP error, timeout, transport error,
  non-list body) is the `none` case of the `data` argument of the fetch
  functions.
* Python's stable `list.sort(key=...)` is `List.insertionSort` on the same
  key; the dict `alle_tage` of yaml_writer.py is an insertion-ordered
  association list with overwriting update.
-/

namespace DeutscheFerien

/-! ## Dates -/

/-- Days-from-civil (proleptic Gregorian), base 0000-03-01: the day number
of year `y`, month `m`, day `d`. -/
def daysFromCivil (y m d : Nat) : Nat :=
  let y2 := if m ≤ 2 then y - 1 else y
  let era := y2 / 400
  let yoe := y2 % 400
  let mp := if m ≤ 2 then m + 9 else m - 3
  let doy := (153 * mp + 2) / 5 + d - 1
  let doe := yoe * 365 + yoe / 4 - yoe / 100 + doy
  era * 146097 + doe

/-- The year component of the civil date of day number `rd`. -/
def yearOfDays (rd : Nat) : Nat :=
  let era := rd / 146097
  let doe := rd % 146097
  let yoe := (doe - doe / 1460 + doe / 36524 - doe / 146096) / 365
  let y := yoe + era * 400
  let doy := doe - (365 * yoe + yoe / 4 - yoe / 100)
  let mp := (5 * doy + 2) / 153
  if mp < 10 then y else y + 1

/-- A Python `datetime.date`, as its day number since 0000-03-01. -/
structure Date where
  rd : Nat
deriving DecidableEq

/-- `date(y, m, d)` / `date.fromisoformat("y-m-d")` for a valid date. -/
def mkDate (y m d : Nat) : Date := ⟨daysFromCivil y m d⟩

instance : LE Date := ⟨fun a b => a.rd ≤ b.rd⟩

instance : LT Date := ⟨fun a b => a.rd < b.rd⟩

instance (a b : Date) : Decidable (a ≤ b) :=
  inferInstanceAs (Decidable (a.rd ≤ b.rd))

instance (a b : Date) : Decidable (a < b) :=
  inferInstanceAs (Decidable (a.rd < b.rd))

/-- Python `date.year`. -/
def Date.year (d : Date) : Nat := yearOfDays d.rd

/-- Python `date.weekday()`: Monday = 0 … Sunday = 6. -/
def Date.weekday (d : Date) : Nat := (d.rd + 2) % 7

/-- `WOCHENTAGE` of api.py / yaml_writer.py. -/
def WOCHENTAGE : List String :=
  ["Montag", "Dienstag", "Mittwoch", "Donnerstag", "Freitag", "Samstag", "Sonntag"]

/-! ## api.py: records and localisation -/

/-- One element of an OpenHolidaysAPI `name` array: `{"language": …, "text": …}`;
`none` models an absent key. -/
structure NameEntry where
  language : Option String
  text : Option String
deriving DecidableEq

/-- `_get_localized_name` (api.py): first entry with language `"DE"`, else the
first entry's text, else the fallback. -/
def getLocalizedName (nameList : List NameEntry) (fallback : String) : String :=
  match nameList with
  | [] => fallback
  | first :: _ =>
    match nameList.find? (fun e => e.language = some "DE") with
    | some e => e.text.getD fallback
    | none => first.text.getD fallback

/-- A raw school-holiday JSON record as consumed by `fetch_ferien`:
`startDate` / `endDate` are `none` when the string is missing, empty or
unparsable (all three are dropped identically by the source). -/
structure RawFerienEntry where
  name : List NameEntry
  startDate : Option Date
  endDate : Option Date
deriving DecidableEq

/-- A raw public-holiday JSON record as consumed by `fetch_feiertage`;
`subdivisions` carries the `code` strings of the record's `subdivisions`
list (`entry.get("subdivisions") or []`). -/
structure RawFeiertagEntry where
  name : List NameEntry
  startDate : Option Date
  nationwide : Bool
  subdivisions : List String
deriving DecidableEq

/-- The dict `{"name": …, "start": …, "end": …}` appended to `ferien`
(api.py, fetch_ferien).  `ende` embeds the key `"end"`, a Lean keyword;
dates are stored parsed - ISO serialisation is injective and
order-preserving, so dict keys compare identically. -/
structure FerienDict where
  name : String
  start : Date
  ende : Date
deriving DecidableEq

/-- The dict `{"name": …, "datum": …, "wochentag": …, "typ": …}` appended to
`feiertage` (api.py, fetch_feiertage). -/
structure FeiertagDict where
  name : String
  datum : Date
  wochentag : String
  typ : String
deriving DecidableEq

/-- Python `set.add` on a membership-only set of years. -/
def addYear (ys : List Nat) (y : Nat) : List Nat :=
  if y ∈ ys then ys else y :: ys

/-- `list(range(von.year, bis.year + 1))`: every calendar year of the
request window, ascending. -/
def windowYears (von bis : Date) : List Nat :=
  List.range' von.year (bis.year + 1 - von.year)

/-- `sorted(requested_years - years_with_data)` where `requested_years`
is `windowYears`: the ascending list of requested years without data. -/
def missingYearsOf (von bis : Date) (yearsWithData : List Nat) : List Nat :=
  (windowYears von bis).filter (fun y => ¬ y ∈ yearsWithData)

/-- The record loop of `fetch_ferien` (api.py): parse both dates
(dropping the record on failure), localise the name, record the start and
end years in `years_with_data`, and append the record unless its
`(name, start, end)` key was already seen. -/
def ferienLoop (entries : List RawFerienEntry) (seen : List (String × Date × Date))
    (years : List Nat) (acc : List FerienDict) : List FerienDict × List Nat :=
  match entries with
  | [] => (acc, years)
  | e :: rest =>
    match e.startDate, e.endDate with
    | some s, some en =>
      let name := getLocalizedName e.name "Ferien"
      let years2 := addYear (addYear years s.year) en.year
      let key : String × Date × Date := (name, s, en)
      if key ∈ seen then
        ferienLoop rest seen years2 acc
      else
        ferienLoop rest (key :: seen) years2 (acc ++ [⟨name, s, en⟩])
    | _, _ => ferienLoop rest seen years acc

/-- `ferien.sort(key=lambda x: x["start"])`: sort key of the final stable
sort of `fetch_ferien`. -/
def ferienLE (a b : FerienDict) : Prop := a.start.rd ≤ b.start.rd

instance : DecidableRel ferienLE :=
  fun a b => inferInstanceAs (Decidable (a.start.rd ≤ b.start.rd))

instance : IsTotal FerienDict ferienLE := ⟨fun a b => Nat.le_total _ _⟩

instance : IsTrans FerienDict ferienLE := ⟨fun _ _ _ h h2 => Nat.le_trans h h2⟩

/-- `fetch_ferien` (api.py) after the network step: `data = none` models
`_api_request` returning `None`, in which case the function returns the
empty list and reports every window year missing; otherwise the record
loop runs, the records are sorted by start and the missing years are the
requested years with no observed record year. -/
def fetchFerien (von bis : Date) (data : Option (List RawFerienEntry)) :
    List FerienDict × List Nat :=
  match data with
  | none => ([], windowYears von bis)
  | some entries =>
    let res := ferienLoop entries [] [] []
    (List.insertionSort ferienLE res.1, missingYearsOf von bis res.2)

/-! ## api.py: fetch_feiertage -/

/-- The classification chain of `fetch_feiertage` (api.py): returns the
`tag_type` of an included record, `none` for an excluded one.  The three
branches are, in source order: nationwide and national included; the
queried subdivision listed and regional included; no subdivision info at
all (not nationwide, empty list) treated as national. -/
def classifyFeiertag (subdivision : String) (includeNational includeRegional : Bool)
    (e : RawFeiertagEntry) : Option String :=
  let isRegional := subdivision ∈ e.subdivisions
  if e.nationwide && includeNational then some "national"
  else if isRegional && includeRegional then some "regional"
  else if !e.nationwide && e.subdivisions.isEmpty && includeNational then some "national"
  else none

/-- The record loop of `fetch_feiertage` (api.py): parse the date (dropping
the record on failure), localise the name, classify (skipping excluded
records before any year is observed), record the year, and append the
record unless its `(name, datum)` key was already seen. -/
def feiertageLoop (subdivision : String) (includeNational includeRegional : Bool)
    (entries : List RawFeiertagEntry) (seen : List (String × Date))
    (years : List Nat) (acc : List FeiertagDict) : List FeiertagDict × List Nat :=
  match entries with
  | [] => (acc, years)
  | e :: rest =>
    match e.startDate with
    | some d =>
      let name := getLocalizedName e.name "Feiertag"
      match classifyFeiertag subdivision includeNational includeRegional e with
      | none => feiertageLoop subdivision includeNational includeRegional rest seen years acc
      | some tagType =>
        let years2 := addYear years d.year
        let key : String × Date := (name, d)
        if key ∈ seen then
          feiertageLoop subdivision includeNational includeRegional rest seen years2 acc
        else
          feiertageLoop subdivision includeNational includeRegional rest (key :: seen) years2
            (acc ++ [⟨name, d, (WOCHENTAGE.getD d.weekday ""), tagType⟩])
    | none => feiertageLoop subdivision includeNational includeRegional rest seen years acc

/-- `feiertage.sort(key=lambda x: x["datum"])`: sort key of the final
stable sort of `fetch_feiertage`. -/
def feiertagLE (a b : FeiertagDict) : Prop := a.datum.rd ≤ b.datum.rd

instance : DecidableRel feiertagLE :=
  fun a b => inferInstanceAs (Decidable (a.datum.rd ≤ b.datum.rd))

instance : IsTotal FeiertagDict feiertagLE := ⟨fun a b => Nat.le_total _ _⟩

instance : IsTrans FeiertagDict feiertagLE := ⟨fun _ _ _ h h2 => Nat.le_trans h h2⟩

/-- `fetch_feiertage` (api.py) after the network step, analogous to
`fetchFerien`. -/
def fetchFeiertage (subdivision : String) (includeNational includeRegional : Bool)
    (von bis : Date) (data : Option (List RawFeiertagEntry)) :
    List FeiertagDict × List Nat :=
  match data with
  | none => ([], windowYears von bis)
  | some entries =>
    let res := feiertageLoop subdivision includeNational includeRegional entries [] [] []
    (List.insertionSort feiertagLE res.1, missingYearsOf von bis res.2)

/-! ## coordinator.py: the Feiertage fetch decision and the derived facts -/

/-- The optional-Feiertage step of `FerienCoordinator._async_update_data`
(coordinator.py): fetch only when at least one toggle is on, otherwise keep
`feiertage = None` and `feiertage_missing = []`. -/
def coordinatorFeiertage (subdivision : String) (includeNational includeRegional : Bool)
    (von bis : Date) (data : Option (List RawFeiertagEntry)) :
    Option (List FeiertagDict) × List Nat :=
  if includeNational || includeRegional then
    let res := fetchFeiertage subdivision includeNational includeRegional von bis data
    (some res.1, res.2)
  else (none, [])

/-- The sensor-facing fields computed at the end of
`FerienCoordinator._async_update_data` (coordinator.py).  Field names are the
result-dict keys; dates are stored parsed (the dict stores their ISO strings,
whose ordering agrees). -/
structure DerivedFacts where
  aktuelle_ferien : Option String
  naechste_ferien : Option String
  naechste_ferien_start : Option Date
  tage_bis_naechste_ferien : Option Nat
  naechster_feiertag : Option String
  naechster_feiertag_datum : Option Date
  tage_bis_naechster_feiertag : Option Nat
  heute_schulfrei : Bool
  heute_grund : Option String
deriving DecidableEq

/-- The "Current / next Ferien" loop (coordinator.py): one pass that breaks
at the first period containing today (recording it as `aktuelle_ferien`,
leaving the next-period accumulator as it stands), and otherwise records the
first period with `start > today` in the accumulator.  `(f_start - today).days`
is the day-number difference, positive at every recording site. -/
def scanFerien (today : Date) (next : Option (String × Date × Nat)) :
    List FerienDict → Option String × Option (String × Date × Nat)
  | [] => (none, next)
  | f :: rest =>
    if f.start ≤ today ∧ today ≤ f.ende then (some f.name, next)
    else if today < f.start ∧ next = none then
      scanFerien today (some (f.name, f.start, f.start.rd - today.rd)) rest
    else scanFerien today next rest

/-- The "Next Feiertag" loop (coordinator.py): first day with
`date >= today`, recording name, date and the day difference. -/
def scanFeiertage (today : Date) : List FeiertagDict → Option (String × Date × Nat)
  | [] => none
  | ft :: rest =>
    if today ≤ ft.datum then some (ft.name, ft.datum, ft.datum.rd - today.rd)
    else scanFeiertage today rest

/-- First half of the "Is today school-free?" pass (coordinator.py): first
period whose ISO-string range contains today's ISO string (equivalently,
whose date range contains today). -/
def findHeuteFerien (today : Date) : List FerienDict → Option String
  | [] => none
  | f :: rest =>
    if f.start ≤ today ∧ today ≤ f.ende then some f.name
    else findHeuteFerien today rest

/-- Second half of the "Is today school-free?" pass (coordinator.py): first
holiday-day whose date string equals today's. -/
def findHeuteFeiertag (today : Date) : List FeiertagDict → Option String
  | [] => none
  | ft :: rest =>
    if ft.datum = today then some ft.name
    else findHeuteFeiertag today rest

/-- The derived-facts block of `FerienCoordinator._async_update_data`
(coordinator.py, after the result dict is initialised with `None` / `False`
defaults): the current/next scan, the next-Feiertag scan, and the two-stage
"heute schulfrei" pass.  `feiertage` is the published list (`feiertage or []`:
an absent fetch behaves as the empty list in both loops). -/
def derive (ferien : List FerienDict) (feiertage : List FeiertagDict)
    (today : Date) : DerivedFacts :=
  let scan := scanFerien today none ferien
  let next := scan.2
  let nf := scanFeiertage today feiertage
  let grund :=
    match findHeuteFerien today ferien with
    | some n => some n
    | none => findHeuteFeiertag today feiertage
  { aktuelle_ferien := scan.1
    naechste_ferien := next.map (fun x => x.1)
    naechste_ferien_start := next.map (fun x => x.2.1)
    tage_bis_naechste_ferien := next.map (fun x => x.2.2)
    naechster_feiertag := nf.map (fun x => x.1)
    naechster_feiertag_datum := nf.map (fun x => x.2.1)
    tage_bis_naechster_feiertag := nf.map (fun x => x.2.2)
    heute_schulfrei := grund.isSome
    heute_grund := grund }

/-! ## yaml_writer.py: the expanded free-day section -/

/-- Dict assignment `m[k] = v` on an insertion-ordered association list:
overwrite the first binding of the key in place (dict keys are unique, so
"first" is "the") if present, else append at the end. -/
def setKey (m : List (Nat × String)) (k : Nat) (v : String) : List (Nat × String) :=
  match m with
  | [] => [(k, v)]
  | p :: rest => if p.1 = k then (k, v) :: rest else p :: setKey rest k v

/-- Dict lookup: the value stored at key `k`, if any. -/
def lookupKey (m : List (Nat × String)) (k : Nat) : Option String :=
  (m.find? (fun p => p.1 = k)).map (fun p => p.2)

/-- `while current <= end` day iteration of yaml_writer.py, as the ascending
day-number list of the inclusive range. -/
def daysRange (s e : Nat) : List Nat := List.range' s (e + 1 - s)

/-- The Ferien half of the `alle_tage` construction (yaml_writer.py): every
weekday (`weekday() < 5`) of the period's range is mapped to the period's
name. -/
def addFerienTage (m : List (Nat × String)) (f : FerienDict) : List (Nat × String) :=
  (daysRange f.start.rd f.ende.rd).foldl
    (fun acc d => if (d + 2) % 7 < 5 then setKey acc d f.name else acc) m

/-- The Feiertage half of the `alle_tage` construction (yaml_writer.py): a
date already present has the holiday name concatenated with `" / "`, a new
date is mapped to the holiday name alone. -/
def addFeiertagTag (m : List (Nat × String)) (ft : FeiertagDict) : List (Nat × String) :=
  match lookupKey m ft.datum.rd with
  | some old => setKey m ft.datum.rd (old ++ " / " ++ ft.name)
  | none => setKey m ft.datum.rd ft.name

/-- The full `alle_tage` dict of `write_ferien_yaml` (yaml_writer.py):
periods first, then holiday-days (the `if feiertage:` guard is the empty
loop for an absent list). -/
def alleTage (ferien : List FerienDict) (feiertage : List FeiertagDict) :
    List (Nat × String) :=
  feiertage.foldl addFeiertagTag (ferien.foldl addFerienTage [])

/-- One entry of the `alle_freien_tage` section: `(datum, wochentag, grund)`. -/
structure FreierTag where
  datum : Nat
  wochentag : String
  grund : String
deriving DecidableEq

/-- The `alle_freien_tage` section of `write_ferien_yaml` (yaml_writer.py):
one entry per key of `alle_tage`, in ascending date order (`sorted(...)`;
the keys of a dict are pairwise distinct, and the lookup of a key of the
dict cannot miss, so the `""` default of `getD` is never used). -/
def alleFreienTage (ferien : List FerienDict) (feiertage : List FeiertagDict) :
    List FreierTag :=
  let m := alleTage ferien feiertage
  (List.insertionSort (fun a b => a ≤ b) (m.map (fun p => p.1))).map
    (fun d => ⟨d, WOCHENTAGE.getD ((d + 2) % 7) "", (lookupKey m d).getD ""⟩)

/-! ## Derived definitions used to state the claims -/

/-- Deduplication identity key of a period record (api.py uses the ISO
strings of the two dates, whose equality coincides with date equality). -/
def ferienKey (f : FerienDict) : String × Date × Date := (f.name, f.start, f.ende)

/-- Deduplication identity key of a holiday-day record. -/
def feiertagKey (f : FeiertagDict) : String × Date := (f.name, f.datum)

/-- The stream of period records `fetch_ferien` considers, in source order:
per-record parse and localisation, before deduplication. -/
def parsedFerien : List RawFerienEntry → List FerienDict
  | [] => []
  | e :: rest =>
    match e.startDate, e.endDate with
    | some s, some en => ⟨getLocalizedName e.name "Ferien", s, en⟩ :: parsedFerien rest
    | _, _ => parsedFerien rest

/-- The stream of holiday-day records `fetch_feiertage` considers, in source
order: per-record parse, localisation and classification, before
deduplication. -/
def parsedFeiertage (subdivision : String) (includeNational includeRegional : Bool) :
    List RawFeiertagEntry → List FeiertagDict
  | [] => []
  | e :: rest =>
    match e.startDate with
    | some d =>
      match classifyFeiertag subdivision includeNational includeRegional e with
      | some tagType =>
        ⟨getLocalizedName e.name "Feiertag", d, WOCHENTAGE.getD d.weekday "", tagType⟩ ::
          parsedFeiertage subdivision includeNational includeRegional rest
      | none => parsedFeiertage subdivision includeNational includeRegional rest
    | none => parsedFeiertage subdivision includeNational includeRegional rest

/-- The reason recorded at date `d` in the expanded free-day section. -/
def grundAt (l : List FreierTag) (d : Nat) : Option String :=
  (l.find? (fun t => t.datum = d)).map (fun t => t.grund)

/-- Day `d` is a Monday-to-Friday day inside period `f`: exactly the days
the Ferien half of the expansion writes. -/
def coversWkd (d : Nat) (f : FerienDict) : Prop :=
  f.start.rd ≤ d ∧ d ≤ f.ende.rd ∧ (d + 2) % 7 < 5

instance (d : Nat) (f : FerienDict) : Decidable (coversWkd d f) :=
  inferInstanceAs (Decidable (_ ∧ _ ∧ _))

/-- Two periods with disjoint inclusive date ranges (the spec assumes
periods do not overlap). -/
def ferienDisjoint (f g : FerienDict) : Prop :=
  f.ende.rd < g.start.rd ∨ g.ende.rd < f.start.rd

instance : DecidableRel ferienDisjoint :=
  fun f g => inferInstanceAs (Decidable (_ ∨ _))

/-! ## Lemmas about the derived-facts scans -/

theorem findHeuteFerien_eq_find (t : Date) :
    ∀ l, findHeuteFerien t l =
      (l.find? (fun f => decide (f.start ≤ t ∧ t ≤ f.ende))).map FerienDict.name
  | [] => rfl
  | f :: rest => by
    by_cases h : f.start ≤ t ∧ t ≤ f.ende
    · rw [findHeuteFerien, if_pos h, List.find?_cons_of_pos _ (by simpa using h)]
      rfl
    · rw [findHeuteFerien, if_neg h, List.find?_cons_of_neg _ (by simpa using h),
        findHeuteFerien_eq_find t rest]

theorem findHeuteFeiertag_eq_find (t : Date) :
    ∀ l, findHeuteFeiertag t l =
      (l.find? (fun ft => decide (ft.datum = t))).map FeiertagDict.name
  | [] => rfl
  | ft :: rest => by
    by_cases h : ft.datum = t
    · rw [findHeuteFeiertag, if_pos h, List.find?_cons_of_pos _ (by simpa using h)]
      rfl
    · rw [findHeuteFeiertag, if_neg h, List.find?_cons_of_neg _ (by simpa using h),
        findHeuteFeiertag_eq_find t rest]

theorem scanFerien_fst (t : Date) :
    ∀ (l : List FerienDict) (acc : Option (String × Date × Nat)),
      (scanFerien t acc l).1 =
        (l.find? (fun f => decide (f.start ≤ t ∧ t ≤ f.ende))).map FerienDict.name
  | [], _ => rfl
  | f :: rest, acc => by
    by_cases h : f.start ≤ t ∧ t ≤ f.ende
    · rw [scanFerien, if_pos h, List.find?_cons_of_pos _ (by simpa using h)]
      rfl
    · rw [scanFerien, if_neg h, List.find?_cons_of_neg _ (by simpa using h)]
      by_cases h2 : t < f.start ∧ acc = none
      · rw [if_pos h2, scanFerien_fst t rest]
      · rw [if_neg h2, scanFerien_fst t rest]

/-- The reason computed by `derive` is the first period match, else the
first holiday-day match. -/
theorem derive_heute_grund (ferien : List FerienDict) (feiertage : List FeiertagDict)
    (today : Date) :
    (derive ferien feiertage today).heute_grund =
      match ferien.find? (fun f => decide (f.start ≤ today ∧ today ≤ f.ende)) with
      | some f => some f.name
      | none => (feiertage.find? (fun ft => decide (ft.datum = today))).map FeiertagDict.name := by
  simp only [derive, findHeuteFerien_eq_find, findHeuteFeiertag_eq_find]
  cases ferien.find? (fun f => decide (f.start ≤ today ∧ today ≤ f.ende)) <;> rfl

theorem derive_heute_schulfrei (ferien : List FerienDict) (feiertage : List FeiertagDict)
    (today : Date) :
    (derive ferien feiertage today).heute_schulfrei =
      (derive ferien feiertage today).heute_grund.isSome := by
  simp only [derive]

/-! ## Claim theorems -/

/-- C9: in every derived snapshot, `heute_schulfrei` is `true` exactly when
`heute_grund` is non-null; the two are set together (both scans set a name
with the flag) or keep their `false` / `None` defaults together. -/
theorem heute_flag_iff_grund (ferien : List FerienDict) (feiertage : List FeiertagDict)
    (today : Date) :
    (derive ferien feiertage today).heute_schulfrei = true ↔
      (derive ferien feiertage today).heute_grund ≠ none := by
  rw [derive_heute_schulfrei]
  exact Option.isSome_iff_ne_none

/-- C3: `heute_schulfrei` is true exactly when today lies in some period's
inclusive range or equals some holiday-day's date; the recorded reason is
the first match, periods before holiday-days; and whenever a current period
is reported, today is free with that period's name as the reason (Scenario
C is the witness). -/
theorem today_free_characterization (ferien : List FerienDict)
    (feiertage : List FeiertagDict) (today : Date) :
    ((derive ferien feiertage today).heute_schulfrei = true ↔
      (∃ f ∈ ferien, f.start ≤ today ∧ today ≤ f.ende) ∨
        (∃ ft ∈ feiertage, ft.datum = today))
    ∧ ((derive ferien feiertage today).heute_grund =
        match ferien.find? (fun f => decide (f.start ≤ today ∧ today ≤ f.ende)) with
        | some f => some f.name
        | none => (feiertage.find? (fun ft => decide (ft.datum = today))).map FeiertagDict.name)
    ∧ (∀ n, (derive ferien feiertage today).aktuelle_ferien = some n →
        (derive ferien feiertage today).heute_schulfrei = true ∧
          (derive ferien feiertage today).heute_grund = some n) := by
  refine ⟨?_, derive_heute_grund ferien feiertage today, ?_⟩
  · rw [derive_heute_schulfrei, Option.isSome_iff_ne_none, Ne, derive_heute_grund]
    cases hf : ferien.find? (fun f => decide (f.start ≤ today ∧ today ≤ f.ende)) with
    | some f =>
      have hmem := List.mem_of_find?_eq_some hf
      have hcond : f.start ≤ today ∧ today ≤ f.ende := by simpa using List.find?_some hf
      exact iff_of_true (by simp) (Or.inl ⟨f, hmem, hcond⟩)
    | none =>
      cases hft : feiertage.find? (fun ft => decide (ft.datum = today)) with
      | some ft =>
        have hmem := List.mem_of_find?_eq_some hft
        have hcond : ft.datum = today := by simpa using List.find?_some hft
        exact iff_of_true (by simp) (Or.inr ⟨ft, hmem, hcond⟩)
      | none =>
        refine iff_of_false (by simp) ?_
        rintro (⟨f, hmem, hcond⟩ | ⟨ft, hmem, hcond⟩)
        · have := List.find?_eq_none.mp hf f hmem
          simp [hcond] at this
        · have := List.find?_eq_none.mp hft ft hmem
          simp [hcond] at this
  · intro n hn
    have hfst : (derive ferien feiertage today).aktuelle_ferien =
        (ferien.find? (fun f => decide (f.start ≤ today ∧ today ≤ f.ende))).map
          FerienDict.name := by
      simp only [derive]
      exact scanFerien_fst today ferien none
    rw [hfst] at hn
    cases hf : ferien.find? (fun f => decide (f.start ≤ today ∧ today ≤ f.ende)) with
    | none => rw [hf] at hn; exact absurd hn (by simp)
    | some f =>
      rw [hf] at hn
      have hname : f.name = n := by simpa using hn
      constructor
      · rw [derive_heute_schulfrei, Option.isSome_iff_ne_none, Ne, derive_heute_grund, hf]
        simp
      · rw [derive_heute_grund, hf]
        simpa using hname

/-- C6: with both Feiertage toggles off, the coordinator skips the
holiday-day fetch for any network outcome: no list is fetched, the
published list is empty and the missing-years list is empty. -/
theorem feiertage_skipped_when_toggles_off (subdivision : String) (von bis : Date)
    (data : Option (List RawFeiertagEntry)) :
    coordinatorFeiertage subdivision false false von bis data = (none, []) ∧
      ((coordinatorFeiertage subdivision false false von bis data).1.getD []) = [] :=
  ⟨rfl, rfl⟩

/-- C5: when the request unit fails (`_api_request` returns `None`: HTTP
error, timeout, transport error or malformed body), both fetch functions
return the empty record list together with every calendar year of the
requested window as missing, instead of raising. -/
theorem fetch_failure_degrades (subdivision : String) (includeNational includeRegional : Bool)
    (von bis : Date) :
    fetchFerien von bis none = ([], windowYears von bis)
    ∧ fetchFeiertage subdivision includeNational includeRegional von bis none
        = ([], windowYears von bis)
    ∧ (∀ y, y ∈ windowYears von bis ↔ von.year ≤ y ∧ y ≤ bis.year) := by
  refine ⟨rfl, rfl, fun y => ?_⟩
  rw [windowYears, List.mem_range'_1]
  omega

/-- Witness for C3, Scenario C: today `2025-12-24` inside
`{"Weihnachtsferien", 2025-12-22, 2026-01-05}`. -/
theorem today_free_characterization_witness :
    (derive [⟨"Weihnachtsferien", mkDate 2025 12 22, mkDate 2026 1 5⟩] []
        (mkDate 2025 12 24)).aktuelle_ferien = some "Weihnachtsferien"
    ∧ (derive [⟨"Weihnachtsferien", mkDate 2025 12 22, mkDate 2026 1 5⟩] []
        (mkDate 2025 12 24)).heute_schulfrei = true
    ∧ (derive [⟨"Weihnachtsferien", mkDate 2025 12 22, mkDate 2026 1 5⟩] []
        (mkDate 2025 12 24)).heute_grund = some "Weihnachtsferien" :=
  ⟨by decide,
   (today_free_characterization
      [⟨"Weihnachtsferien", mkDate 2025 12 22, mkDate 2026 1 5⟩] []
      (mkDate 2025 12 24)).2.2 "Weihnachtsferien" (by decide)⟩

/-! ## Lemmas for the current/next-period scan (C2) -/

theorem Date.le_def (a b : Date) : a ≤ b ↔ a.rd ≤ b.rd := Iff.rfl

theorem Date.lt_def (a b : Date) : a < b ↔ a.rd < b.rd := Iff.rfl

/-- On a start-sorted list that contains a period covering today, the
current/next scan breaks at the first such period with the next-period
accumulator still empty. -/
theorem scanFerien_snd_of_current (t : Date) :
    ∀ l : List FerienDict, l.Pairwise ferienLE →
      (∃ f ∈ l, f.start ≤ t ∧ t ≤ f.ende) → (scanFerien t none l).2 = none := by
  intro l
  induction l with
  | nil => rintro _ ⟨f, hf, _⟩; cases hf
  | cons f rest ih =>
    rintro hpw ⟨g, hg, hgc⟩
    by_cases h : f.start ≤ t ∧ t ≤ f.ende
    · rw [scanFerien, if_pos h]
    · have hgr : g ∈ rest := by
        rcases List.mem_cons.mp hg with rfl | hr
        · exact absurd hgc h
        · exact hr
      have hnlt : ¬ (t < f.start) := by
        have hle : ferienLE f g := (List.pairwise_cons.mp hpw).1 g hgr
        have h1 : g.start.rd ≤ t.rd := hgc.1
        rw [Date.lt_def]
        unfold ferienLE at hle
        omega
      rw [scanFerien, if_neg h, if_neg (fun hc => hnlt hc.1)]
      exact ih (List.pairwise_cons.mp hpw).2 ⟨g, hgr, hgc⟩

/-- Once the next-period fields are recorded, a current-period-free rest of
the scan changes nothing. -/
theorem scanFerien_of_acc_some (t : Date) (x : String × Date × Nat) :
    ∀ l : List FerienDict, (∀ f ∈ l, ¬(f.start ≤ t ∧ t ≤ f.ende)) →
      scanFerien t (some x) l = (none, some x) := by
  intro l
  induction l with
  | nil => intro _; rfl
  | cons f rest ih =>
    intro h
    rw [scanFerien, if_neg (h f (List.mem_cons_self f rest)),
      if_neg (fun hc => Option.noConfusion hc.2)]
    exact ih (fun g hg => h g (List.mem_cons_of_mem f hg))

/-- With no period covering today, the scan reports no current period and
records the first period with `start > today`. -/
theorem scanFerien_of_no_current (t : Date) :
    ∀ l : List FerienDict, (∀ f ∈ l, ¬(f.start ≤ t ∧ t ≤ f.ende)) →
      scanFerien t none l =
        (none, (l.find? (fun f => decide (t < f.start))).map
          (fun f => (f.name, f.start, f.start.rd - t.rd))) := by
  intro l
  induction l with
  | nil => intro _; rfl
  | cons f rest ih =>
    intro h
    have hrest : ∀ g ∈ rest, ¬(g.start ≤ t ∧ t ≤ g.ende) :=
      fun g hg => h g (List.mem_cons_of_mem f hg)
    by_cases h2 : t < f.start
    · rw [scanFerien, if_neg (h f (List.mem_cons_self f rest)), if_pos ⟨h2, rfl⟩,
        scanFerien_of_acc_some t _ rest hrest,
        List.find?_cons_of_pos _ (by simpa using h2)]
      rfl
    · rw [scanFerien, if_neg (h f (List.mem_cons_self f rest)),
        if_neg (fun hc => h2 hc.1), ih hrest,
        List.find?_cons_of_neg _ (by simpa using h2)]

/-- C2 counterexample: today `2025-12-24` lies inside
`{"Weihnachtsferien", 2025-12-22, 2026-01-05}`, and
`{"Osterferien", 2026-03-30, 2026-04-10}` has `start > today`; the claim
says the next period is derived by an independent scan and would be
`"Osterferien"`, but the single source loop breaks at the current period,
so all next-period fields stay `None`. -/
theorem next_period_counterexample :
    (derive [⟨"Weihnachtsferien", mkDate 2025 12 22, mkDate 2026 1 5⟩,
             ⟨"Osterferien", mkDate 2026 3 30, mkDate 2026 4 10⟩] []
        (mkDate 2025 12 24)).naechste_ferien = none
    ∧ (derive [⟨"Weihnachtsferien", mkDate 2025 12 22, mkDate 2026 1 5⟩,
               ⟨"Osterferien", mkDate 2026 3 30, mkDate 2026 4 10⟩] []
        (mkDate 2025 12 24)).naechste_ferien ≠ some "Osterferien"
    ∧ mkDate 2025 12 24 < mkDate 2026 3 30
    ∧ (⟨"Weihnachtsferien", mkDate 2025 12 22, mkDate 2026 1 5⟩ : FerienDict).start
        ≤ mkDate 2025 12 24
    ∧ mkDate 2025 12 24 ≤ (⟨"Weihnachtsferien", mkDate 2025 12 22,
        mkDate 2026 1 5⟩ : FerienDict).ende := by
  refine ⟨by decide, by decide, by decide, by decide, by decide⟩

/-- C2 amended: on a start-sorted period list, the next-period fields are
computed only when no period contains today; they then describe the first
period with `start > today`, with `days_until = start - today ≥ 1`.  When a
current period exists, the scan stops there and the next-period fields
remain null. -/
theorem next_period_characterization (ferien : List FerienDict)
    (feiertage : List FeiertagDict) (today : Date)
    (hsort : ferien.Pairwise ferienLE) :
    ((∃ f ∈ ferien, f.start ≤ today ∧ today ≤ f.ende) →
      (derive ferien feiertage today).naechste_ferien = none
      ∧ (derive ferien feiertage today).naechste_ferien_start = none
      ∧ (derive ferien feiertage today).tage_bis_naechste_ferien = none)
    ∧ ((∀ f ∈ ferien, ¬(f.start ≤ today ∧ today ≤ f.ende)) →
      (derive ferien feiertage today).naechste_ferien
        = (ferien.find? (fun f => decide (today < f.start))).map FerienDict.name
      ∧ (derive ferien feiertage today).naechste_ferien_start
        = (ferien.find? (fun f => decide (today < f.start))).map FerienDict.start
      ∧ (derive ferien feiertage today).tage_bis_naechste_ferien
        = (ferien.find? (fun f => decide (today < f.start))).map
            (fun f => f.start.rd - today.rd)
      ∧ (∀ f, ferien.find? (fun f => decide (today < f.start)) = some f →
          1 ≤ f.start.rd - today.rd)) := by
  constructor
  · intro hex
    have h2 := scanFerien_snd_of_current today ferien hsort hex
    simp only [derive, h2]
    exact ⟨rfl, rfl, rfl⟩
  · intro hno
    have h2 := scanFerien_of_no_current today ferien hno
    simp only [derive, h2]
    refine ⟨by cases ferien.find? (fun f => decide (today < f.start)) <;> rfl,
            by cases ferien.find? (fun f => decide (today < f.start)) <;> rfl,
            by cases ferien.find? (fun f => decide (today < f.start)) <;> rfl,
            fun f hf => ?_⟩
    have := List.find?_some hf
    have hlt : today.rd < f.start.rd := by simpa [Date.lt_def] using this
    omega

/-- Witness for the amended C2: no current period, the next one is
`"Osterferien"` starting 96 days after today. -/
theorem next_period_characterization_witness :
    (derive [⟨"Osterferien", mkDate 2026 3 30, mkDate 2026 4 10⟩] []
        (mkDate 2025 12 24)).naechste_ferien = some "Osterferien"
    ∧ (derive [⟨"Osterferien", mkDate 2026 3 30, mkDate 2026 4 10⟩] []
        (mkDate 2025 12 24)).naechste_ferien_start = some (mkDate 2026 3 30)
    ∧ (derive [⟨"Osterferien", mkDate 2026 3 30, mkDate 2026 4 10⟩] []
        (mkDate 2025 12 24)).tage_bis_naechste_ferien = some 96 := by
  have h := (next_period_characterization
      [⟨"Osterferien", mkDate 2026 3 30, mkDate 2026 4 10⟩] []
      (mkDate 2025 12 24) (by decide)).2 (by decide)
  refine ⟨?_, ?_, ?_⟩
  · rw [h.1]; decide
  · rw [h.2.1]; decide
  · rw [h.2.2.1]; decide

/-! ## Lemmas for the fetch loops (C1, C4, C7) -/

/-- Every record produced by the `fetch_ferien` loop is either carried in
from the accumulator or is one of the parsed input records, unchanged. -/
theorem ferienLoop_mem_parsed :
    ∀ (entries : List RawFerienEntry) (seen : List (String × Date × Date))
      (years : List Nat) (acc : List FerienDict) (r : FerienDict),
      r ∈ (ferienLoop entries seen years acc).1 → r ∈ acc ∨ r ∈ parsedFerien entries := by
  intro entries
  induction entries with
  | nil => intro seen years acc r h; exact Or.inl h
  | cons e rest ih =>
    intro seen years acc r h
    cases hs : e.startDate with
    | none =>
      simp only [ferienLoop, hs] at h
      rcases ih _ _ _ r h with ha | hp
      · exact Or.inl ha
      · right; simpa [parsedFerien, hs] using hp
    | some s =>
      cases he : e.endDate with
      | none =>
        simp only [ferienLoop, hs, he] at h
        rcases ih _ _ _ r h with ha | hp
        · exact Or.inl ha
        · right; simpa [parsedFerien, hs, he] using hp
      | some en =>
        simp only [ferienLoop, hs, he] at h
        by_cases hk : (getLocalizedName e.name "Ferien", s, en) ∈ seen
        · rw [if_pos hk] at h
          rcases ih _ _ _ r h with ha | hp
          · exact Or.inl ha
          · right; simp [parsedFerien, hs, he, hp]
        · rw [if_neg hk] at h
          rcases ih _ _ _ r h with ha | hp
          · rcases List.mem_append.mp ha with ha2 | ha2
            · exact Or.inl ha2
            · right
              simp only [List.mem_singleton] at ha2
              simp [parsedFerien, hs, he, ha2]
          · right; simp [parsedFerien, hs, he, hp]

/-- C1 counterexample, Scenario A: window `[2025-08-01, 2026-09-30]`, raw
period `{"Sommerferien", 2025-06-23, 2025-08-05}`.  The claim says the
output is clipped to `{"Sommerferien", 2025-08-01, 2025-08-05}`; the code
returns the period with its original start `2025-06-23`, which lies outside
the window. -/
theorem clipping_counterexample :
    (fetchFerien (mkDate 2025 8 1) (mkDate 2026 9 30)
        (some [⟨[⟨some "DE", some "Sommerferien"⟩], some (mkDate 2025 6 23),
                some (mkDate 2025 8 5)⟩])).1
      = [⟨"Sommerferien", mkDate 2025 6 23, mkDate 2025 8 5⟩]
    ∧ ¬(mkDate 2025 8 1 ≤ mkDate 2025 6 23)
    ∧ (fetchFerien (mkDate 2025 8 1) (mkDate 2026 9 30)
        (some [⟨[⟨some "DE", some "Sommerferien"⟩], some (mkDate 2025 6 23),
                some (mkDate 2025 8 5)⟩])).1
      ≠ [⟨"Sommerferien", mkDate 2025 8 1, mkDate 2025 8 5⟩] := by
  refine ⟨by decide, by decide, by decide⟩

/-- C1 amended: the reconciled periods are not clipped to the request
window and none is excluded for missing it: every output record is one of
the parsed source records with its original start/end, and the period list
does not depend on the window at all (the window only affects the
missing-years report; range restriction is delegated to the remote query
parameters). -/
theorem periods_pass_through_unclipped (von bis : Date) (data : List RawFerienEntry) :
    (∀ f ∈ (fetchFerien von bis (some data)).1, f ∈ parsedFerien data)
    ∧ (∀ von2 bis2, (fetchFerien von bis (some data)).1
        = (fetchFerien von2 bis2 (some data)).1) := by
  refine ⟨fun f hf => ?_, fun _ _ => rfl⟩
  have hmem : f ∈ (ferienLoop data [] [] []).1 :=
    (List.perm_insertionSort ferienLE _).mem_iff.mp hf
  rcases ferienLoop_mem_parsed data [] [] [] f hmem with h | h
  · cases h
  · exact h

/-- Witness for the amended C1, on the Scenario A input: the unclipped
`{"Sommerferien", 2025-06-23, 2025-08-05}` is a parsed source record. -/
theorem periods_pass_through_unclipped_witness :
    (⟨"Sommerferien", mkDate 2025 6 23, mkDate 2025 8 5⟩ : FerienDict) ∈
      parsedFerien [⟨[⟨some "DE", some "Sommerferien"⟩], some (mkDate 2025 6 23),
        some (mkDate 2025 8 5)⟩] :=
  (periods_pass_through_unclipped (mkDate 2025 8 1) (mkDate 2026 9 30)
      [⟨[⟨some "DE", some "Sommerferien"⟩], some (mkDate 2025 6 23),
        some (mkDate 2025 8 5)⟩]).1
    ⟨"Sommerferien", mkDate 2025 6 23, mkDate 2025 8 5⟩ (by decide)

/-- The `fetch_ferien` loop keeps the identity keys of its output pairwise
distinct: a record is appended only when its key is not in `seen`, and
every accumulated key is in `seen`. -/
theorem ferienLoop_nodup_keys :
    ∀ (entries : List RawFerienEntry) (seen : List (String × Date × Date))
      (years : List Nat) (acc : List FerienDict),
      (∀ r ∈ acc, ferienKey r ∈ seen) → (acc.map ferienKey).Nodup →
      ((ferienLoop entries seen years acc).1.map ferienKey).Nodup := by
  intro entries
  induction entries with
  | nil => intro seen years acc _ h2; exact h2
  | cons e rest ih =>
    intro seen years acc h1 h2
    cases hs : e.startDate with
    | none => simp only [ferienLoop, hs]; exact ih _ _ _ h1 h2
    | some s =>
      cases he : e.endDate with
      | none => simp only [ferienLoop, hs, he]; exact ih _ _ _ h1 h2
      | some en =>
        simp only [ferienLoop, hs, he]
        by_cases hk : (getLocalizedName e.name "Ferien", s, en) ∈ seen
        · rw [if_pos hk]; exact ih _ _ _ h1 h2
        · rw [if_neg hk]
          refine ih _ _ _ ?_ ?_
          · intro r hr
            rcases List.mem_append.mp hr with hr2 | hr2
            · exact List.mem_cons_of_mem _ (h1 r hr2)
            · simp only [List.mem_singleton] at hr2
              subst hr2
              exact List.mem_cons_self _ _
          · rw [List.map_append, List.nodup_append]
            refine ⟨h2, List.nodup_singleton _, ?_⟩
            intro k hk2 hk3
            simp only [List.map_cons, List.map_nil, List.mem_singleton] at hk3
            subst hk3
            rcases List.mem_map.mp hk2 with ⟨r, hr, hkey⟩
            exact hk (show ferienKey
              (⟨getLocalizedName e.name "Ferien", s, en⟩ : FerienDict) ∈ seen from
              hkey ▸ h1 r hr)

/-- First occurrence wins in the `fetch_ferien` loop: every output record
is the first parsed record carrying its identity key. -/
theorem ferienLoop_first_wins :
    ∀ (entries : List RawFerienEntry) (seen : List (String × Date × Date))
      (years : List Nat) (acc : List FerienDict) (r : FerienDict),
      r ∈ (ferienLoop entries seen years acc).1 →
      r ∈ acc ∨
        ((parsedFerien entries).find? (fun p => decide (ferienKey p = ferienKey r)) = some r
          ∧ ferienKey r ∉ seen) := by
  intro entries
  induction entries with
  | nil => intro seen years acc r h; exact Or.inl h
  | cons e rest ih =>
    intro seen years acc r h
    cases hs : e.startDate with
    | none =>
      simp only [ferienLoop, hs] at h
      rcases ih _ _ _ r h with ha | ⟨hfind, hseen⟩
      · exact Or.inl ha
      · right
        constructor
        · simpa [parsedFerien, hs] using hfind
        · exact hseen
    | some s =>
      cases he : e.endDate with
      | none =>
        simp only [ferienLoop, hs, he] at h
        rcases ih _ _ _ r h with ha | ⟨hfind, hseen⟩
        · exact Or.inl ha
        · right
          constructor
          · simpa [parsedFerien, hs, he] using hfind
          · exact hseen
      | some en =>
        simp only [ferienLoop, hs, he] at h
        have hparsed : parsedFerien (e :: rest)
            = ⟨getLocalizedName e.name "Ferien", s, en⟩ :: parsedFerien rest := by
          simp [parsedFerien, hs, he]
        by_cases hk : (getLocalizedName e.name "Ferien", s, en) ∈ seen
        · rw [if_pos hk] at h
          rcases ih _ _ _ r h with ha | ⟨hfind, hseen⟩
          · exact Or.inl ha
          · right
            refine ⟨?_, hseen⟩
            rw [hparsed]
            rw [List.find?_cons_of_neg _ ?_, hfind]
            intro hkey
            simp only [decide_eq_true_eq, ferienKey] at hkey
            refine hseen ?_
            simp only [ferienKey]
            rw [← hkey]
            exact hk
        · rw [if_neg hk] at h
          rcases ih _ _ _ r h with ha | ⟨hfind, hseen⟩
          · rcases List.mem_append.mp ha with ha2 | ha2
            · exact Or.inl ha2
            · simp only [List.mem_singleton] at ha2
              subst ha2
              right
              refine ⟨?_, hk⟩
              rw [hparsed, List.find?_cons_of_pos _ (by simp)]
          · right
            constructor
            · rw [hparsed]
              rw [List.find?_cons_of_neg _ ?_, hfind]
              intro hkey
              simp only [decide_eq_true_eq, ferienKey] at hkey
              refine hseen ?_
              simp only [ferienKey]
              rw [← hkey]
              exact List.mem_cons_self _ _
            · exact fun hmem => hseen (List.mem_cons_of_mem _ hmem)

/-- The `fetch_feiertage` loop keeps the identity keys of its output
pairwise distinct. -/
theorem feiertageLoop_nodup_keys (subdivision : String) (n r2 : Bool) :
    ∀ (entries : List RawFeiertagEntry) (seen : List (String × Date))
      (years : List Nat) (acc : List FeiertagDict),
      (∀ r ∈ acc, feiertagKey r ∈ seen) → (acc.map feiertagKey).Nodup →
      ((feiertageLoop subdivision n r2 entries seen years acc).1.map feiertagKey).Nodup := by
  intro entries
  induction entries with
  | nil => intro seen years acc _ h2; exact h2
  | cons e rest ih =>
    intro seen years acc h1 h2
    cases hs : e.startDate with
    | none => simp only [feiertageLoop, hs]; exact ih _ _ _ h1 h2
    | some d =>
      cases hc : classifyFeiertag subdivision n r2 e with
      | none => simp only [feiertageLoop, hs, hc]; exact ih _ _ _ h1 h2
      | some tagType =>
        simp only [feiertageLoop, hs, hc]
        by_cases hk : (getLocalizedName e.name "Feiertag", d) ∈ seen
        · rw [if_pos hk]; exact ih _ _ _ h1 h2
        · rw [if_neg hk]
          refine ih _ _ _ ?_ ?_
          · intro r hr
            rcases List.mem_append.mp hr with hr2 | hr2
            · exact List.mem_cons_of_mem _ (h1 r hr2)
            · simp only [List.mem_singleton] at hr2
              subst hr2
              exact List.mem_cons_self _ _
          · rw [List.map_append, List.nodup_append]
            refine ⟨h2, List.nodup_singleton _, ?_⟩
            intro k hk2 hk3
            simp only [List.map_cons, List.map_nil, List.mem_singleton] at hk3
            subst hk3
            rcases List.mem_map.mp hk2 with ⟨r, hr, hkey⟩
            exact hk (show feiertagKey
              (⟨getLocalizedName e.name "Feiertag", d, WOCHENTAGE.getD d.weekday "",
                tagType⟩ : FeiertagDict) ∈ seen from hkey ▸ h1 r hr)

/-- First occurrence wins in the `fetch_feiertage` loop: every output
record is the first parsed-and-included record carrying its identity key. -/
theorem feiertageLoop_first_wins (subdivision : String) (n r2 : Bool) :
    ∀ (entries : List RawFeiertagEntry) (seen : List (String × Date))
      (years : List Nat) (acc : List FeiertagDict) (r : FeiertagDict),
      r ∈ (feiertageLoop subdivision n r2 entries seen years acc).1 →
      r ∈ acc ∨
        ((parsedFeiertage subdivision n r2 entries).find?
            (fun p => decide (feiertagKey p = feiertagKey r)) = some r
          ∧ feiertagKey r ∉ seen) := by
  intro entries
  induction entries with
  | nil => intro seen years acc r h; exact Or.inl h
  | cons e rest ih =>
    intro seen years acc r h
    cases hs : e.startDate with
    | none =>
      simp only [feiertageLoop, hs] at h
      rcases ih _ _ _ r h with ha | ⟨hfind, hseen⟩
      · exact Or.inl ha
      · exact Or.inr ⟨by simpa [parsedFeiertage, hs] using hfind, hseen⟩
    | some d =>
      cases hc : classifyFeiertag subdivision n r2 e with
      | none =>
        simp only [feiertageLoop, hs, hc] at h
        rcases ih _ _ _ r h with ha | ⟨hfind, hseen⟩
        · exact Or.inl ha
        · exact Or.inr ⟨by simpa [parsedFeiertage, hs, hc] using hfind, hseen⟩
      | some tagType =>
        simp only [feiertageLoop, hs, hc] at h
        have hparsed : parsedFeiertage subdivision n r2 (e :: rest)
            = ⟨getLocalizedName e.name "Feiertag", d, WOCHENTAGE.getD d.weekday "",
                tagType⟩ :: parsedFeiertage subdivision n r2 rest := by
          simp [parsedFeiertage, hs, hc]
        by_cases hk : (getLocalizedName e.name "Feiertag", d) ∈ seen
        · rw [if_pos hk] at h
          rcases ih _ _ _ r h with ha | ⟨hfind, hseen⟩
          · exact Or.inl ha
          · right
            refine ⟨?_, hseen⟩
            rw [hparsed, List.find?_cons_of_neg _ ?_, hfind]
            intro hkey
            simp only [decide_eq_true_eq, feiertagKey] at hkey
            refine hseen ?_
            simp only [feiertagKey]
            rw [← hkey]
            exact hk
        · rw [if_neg hk] at h
          rcases ih _ _ _ r h with ha | ⟨hfind, hseen⟩
          · rcases List.mem_append.mp ha with ha2 | ha2
            · exact Or.inl ha2
            · simp only [List.mem_singleton] at ha2
              subst ha2
              right
              refine ⟨?_, hk⟩
              rw [hparsed, List.find?_cons_of_pos _ (by simp)]
          · right
            constructor
            · rw [hparsed, List.find?_cons_of_neg _ ?_, hfind]
              intro hkey
              simp only [decide_eq_true_eq, feiertagKey] at hkey
              refine hseen ?_
              simp only [feiertagKey]
              rw [← hkey]
              exact List.mem_cons_self _ _
            · exact fun hmem => hseen (List.mem_cons_of_mem _ hmem)

/-- C4: both fetch outputs are deduplicated by identity key — periods by
`(name, start, end)`, holiday-days by `(name, date)` — no two output
entries share a key, and each output record is the first parsed input
record with its key (later duplicates are silently dropped). -/
theorem dedup_by_identity_key (von bis : Date) (dataF : List RawFerienEntry)
    (subdivision : String) (n r2 : Bool) (dataT : List RawFeiertagEntry) :
    ((fetchFerien von bis (some dataF)).1.map ferienKey).Nodup
    ∧ (∀ f ∈ (fetchFerien von bis (some dataF)).1,
        (parsedFerien dataF).find? (fun p => decide (ferienKey p = ferienKey f)) = some f)
    ∧ ((fetchFeiertage subdivision n r2 von bis (some dataT)).1.map feiertagKey).Nodup
    ∧ (∀ ft ∈ (fetchFeiertage subdivision n r2 von bis (some dataT)).1,
        (parsedFeiertage subdivision n r2 dataT).find?
          (fun p => decide (feiertagKey p = feiertagKey ft)) = some ft) := by
  refine ⟨?_, fun f hf => ?_, ?_, fun ft hft => ?_⟩
  · exact ((List.perm_insertionSort ferienLE _).map ferienKey).nodup_iff.mpr
      (ferienLoop_nodup_keys dataF [] [] [] (fun r hr => absurd hr (List.not_mem_nil r))
        List.nodup_nil)
  · have hmem : f ∈ (ferienLoop dataF [] [] []).1 :=
      (List.perm_insertionSort ferienLE _).mem_iff.mp hf
    rcases ferienLoop_first_wins dataF [] [] [] f hmem with ha | ⟨hfind, _⟩
    · cases ha
    · exact hfind
  · exact ((List.perm_insertionSort feiertagLE _).map feiertagKey).nodup_iff.mpr
      (feiertageLoop_nodup_keys subdivision n r2 dataT [] [] []
        (fun r hr => absurd hr (List.not_mem_nil r)) List.nodup_nil)
  · have hmem : ft ∈ (feiertageLoop subdivision n r2 dataT [] [] []).1 :=
      (List.perm_insertionSort feiertagLE _).mem_iff.mp hft
    rcases feiertageLoop_first_wins subdivision n r2 dataT [] [] [] ft hmem with
      ha | ⟨hfind, _⟩
    · cases ha
    · exact hfind

/-- Witness for C4, Scenario B: two identical raw period records yield
exactly one output entry, and the duplicated holiday-day record likewise. -/
theorem dedup_by_identity_key_witness :
    (((fetchFerien (mkDate 2025 8 1) (mkDate 2026 9 30)
        (some [⟨[⟨some "DE", some "Sommerferien"⟩], some (mkDate 2025 6 23),
                some (mkDate 2025 8 5)⟩,
               ⟨[⟨some "DE", some "Sommerferien"⟩], some (mkDate 2025 6 23),
                some (mkDate 2025 8 5)⟩])).1.map ferienKey).Nodup)
    ∧ (fetchFerien (mkDate 2025 8 1) (mkDate 2026 9 30)
        (some [⟨[⟨some "DE", some "Sommerferien"⟩], some (mkDate 2025 6 23),
                some (mkDate 2025 8 5)⟩,
               ⟨[⟨some "DE", some "Sommerferien"⟩], some (mkDate 2025 6 23),
                some (mkDate 2025 8 5)⟩])).1.length = 1
    ∧ (parsedFerien [⟨[⟨some "DE", some "Sommerferien"⟩], some (mkDate 2025 6 23),
                some (mkDate 2025 8 5)⟩,
               ⟨[⟨some "DE", some "Sommerferien"⟩], some (mkDate 2025 6 23),
                some (mkDate 2025 8 5)⟩]).find?
        (fun p => decide (ferienKey p = ferienKey
          (⟨"Sommerferien", mkDate 2025 6 23, mkDate 2025 8 5⟩ : FerienDict)))
      = some ⟨"Sommerferien", mkDate 2025 6 23, mkDate 2025 8 5⟩ := by
  refine ⟨(dedup_by_identity_key (mkDate 2025 8 1) (mkDate 2026 9 30) _ "DE-BY" true true []).1,
    by decide,
    (dedup_by_identity_key (mkDate 2025 8 1) (mkDate 2026 9 30) _ "DE-BY" true true []).2.1 _
      (by decide)⟩

/-! ## Lemmas about the observed-years sets (C7, C10) -/

theorem mem_addYear (ys : List Nat) (x y : Nat) :
    y ∈ addYear ys x ↔ y = x ∨ y ∈ ys := by
  unfold addYear
  by_cases h : x ∈ ys
  · rw [if_pos h]
    constructor
    · exact Or.inr
    · rintro (rfl | hy)
      · exact h
      · exact hy
  · rw [if_neg h]
    exact List.mem_cons

theorem exists_mem_cons {α : Type} (a : α) (l : List α) (P : α → Prop) :
    (∃ x ∈ a :: l, P x) ↔ P a ∨ ∃ x ∈ l, P x := by
  constructor
  · rintro ⟨x, hx, hp⟩
    rcases List.mem_cons.mp hx with rfl | hx2
    · exact Or.inl hp
    · exact Or.inr ⟨x, hx2, hp⟩
  · rintro (hp | ⟨x, hx, hp⟩)
    · exact ⟨a, List.mem_cons_self a l, hp⟩
    · exact ⟨x, List.mem_cons_of_mem a hx, hp⟩

/-- The years observed by the `fetch_ferien` loop are exactly the start and
end years of the parseable records (before deduplication: the year is
recorded even for a dropped duplicate). -/
theorem ferienLoop_years_mem :
    ∀ (entries : List RawFerienEntry) (seen : List (String × Date × Date))
      (years : List Nat) (acc : List FerienDict) (y : Nat),
      y ∈ (ferienLoop entries seen years acc).2 ↔
        y ∈ years ∨ ∃ e ∈ entries, ∃ s en,
          e.startDate = some s ∧ e.endDate = some en ∧ (y = s.year ∨ y = en.year) := by
  intro entries
  induction entries with
  | nil =>
    intro seen years acc y
    simp [ferienLoop]
  | cons e rest ih =>
    intro seen years acc y
    rw [exists_mem_cons]
    cases hs : e.startDate with
    | none =>
      simp only [ferienLoop, hs]
      rw [ih]
      simp only [hs, reduceCtorEq, false_and, exists_const, exists_false, false_or]
    | some s =>
      cases he : e.endDate with
      | none =>
        simp only [ferienLoop, hs, he]
        rw [ih]
        simp only [hs, he, Option.some.injEq, reduceCtorEq, and_false, false_and,
          exists_const, exists_false, and_true, exists_and_left, false_or]
      | some en =>
        simp only [ferienLoop, hs, he, Option.some.injEq]
        have hhead : (∃ s2 en2, s = s2 ∧ en = en2 ∧ (y = s2.year ∨ y = en2.year))
            ↔ (y = s.year ∨ y = en.year) := by
          constructor
          · rintro ⟨s2, en2, rfl, rfl, hyr⟩
            exact hyr
          · intro hyr
            exact ⟨s, en, rfl, rfl, hyr⟩
        rw [hhead]
        have hprop : ∀ P Q R S : Prop, ((P ∨ (Q ∨ R)) ∨ S) ↔ (R ∨ ((Q ∨ P) ∨ S)) := by
          intro P Q R S
          tauto
        by_cases hk : (getLocalizedName e.name "Ferien", s, en) ∈ seen
        · rw [if_pos hk, ih, mem_addYear, mem_addYear]
          exact hprop _ _ _ _
        · rw [if_neg hk, ih, mem_addYear, mem_addYear]
          exact hprop _ _ _ _

/-- The years observed by the `fetch_feiertage` loop are exactly the years
of the parseable records that pass the classification/toggle filter (the
year is recorded after the filter but before deduplication). -/
theorem feiertageLoop_years_mem (subdivision : String) (n r2 : Bool) :
    ∀ (entries : List RawFeiertagEntry) (seen : List (String × Date))
      (years : List Nat) (acc : List FeiertagDict) (y : Nat),
      y ∈ (feiertageLoop subdivision n r2 entries seen years acc).2 ↔
        y ∈ years ∨ ∃ e ∈ entries, ∃ d,
          e.startDate = some d
            ∧ (classifyFeiertag subdivision n r2 e).isSome = true ∧ y = d.year := by
  intro entries
  induction entries with
  | nil =>
    intro seen years acc y
    simp [feiertageLoop]
  | cons e rest ih =>
    intro seen years acc y
    rw [exists_mem_cons]
    cases hs : e.startDate with
    | none =>
      simp only [feiertageLoop, hs]
      rw [ih]
      simp only [hs, reduceCtorEq, false_and, exists_false, false_or]
    | some d =>
      cases hc : classifyFeiertag subdivision n r2 e with
      | none =>
        simp only [feiertageLoop, hs, hc]
        rw [ih]
        simp only [hs, hc, Option.some.injEq, Option.isSome_none,
          Bool.false_eq_true, false_and, and_false, exists_false, false_or]
      | some tagType =>
        simp only [feiertageLoop, hs, hc, Option.some.injEq, Option.isSome_some,
          true_and, exists_eq_left']
        have hprop : ∀ P Q S : Prop, ((P ∨ Q) ∨ S) ↔ (Q ∨ (P ∨ S)) := by
          intro P Q S
          tauto
        by_cases hk : (getLocalizedName e.name "Feiertag", d) ∈ seen
        · rw [if_pos hk, ih, mem_addYear]
          exact hprop _ _ _
        · rw [if_neg hk, ih, mem_addYear]
          exact hprop _ _ _

theorem mem_missingYearsOf (von bis : Date) (years : List Nat) (y : Nat) :
    y ∈ missingYearsOf von bis years ↔
      (von.year ≤ y ∧ y ≤ bis.year) ∧ ¬ y ∈ years := by
  rw [missingYearsOf, List.mem_filter, windowYears, List.mem_range'_1]
  constructor
  · rintro ⟨h1, h2⟩
    exact ⟨⟨h1.1, by omega⟩, by simpa using h2⟩
  · rintro ⟨⟨h1, h2⟩, h3⟩
    exact ⟨⟨h1, by omega⟩, by simpa using h3⟩

/-- C7: missing-years monotonicity for both sources.  If every record of
response `A` also occurs in response `B`, then every year missing for `B`
is missing for `A`. -/
theorem missing_years_monotone (von bis : Date) (A B : List RawFerienEntry)
    (subdivision : String) (n r2 : Bool) (A2 B2 : List RawFeiertagEntry)
    (hAB : ∀ e ∈ A, e ∈ B) (hAB2 : ∀ e ∈ A2, e ∈ B2) :
    (∀ y ∈ (fetchFerien von bis (some B)).2, y ∈ (fetchFerien von bis (some A)).2)
    ∧ (∀ y ∈ (fetchFeiertage subdivision n r2 von bis (some B2)).2,
        y ∈ (fetchFeiertage subdivision n r2 von bis (some A2)).2) := by
  constructor
  · intro y hy
    have hy2 : y ∈ missingYearsOf von bis (ferienLoop B [] [] []).2 := hy
    rw [mem_missingYearsOf] at hy2
    show y ∈ missingYearsOf von bis (ferienLoop A [] [] []).2
    rw [mem_missingYearsOf]
    refine ⟨hy2.1, fun hmem => hy2.2 ?_⟩
    rw [ferienLoop_years_mem] at hmem ⊢
    rcases hmem with h | ⟨e, he, hrest⟩
    · cases h
    · exact Or.inr ⟨e, hAB e he, hrest⟩
  · intro y hy
    have hy2 : y ∈ missingYearsOf von bis
        (feiertageLoop subdivision n r2 B2 [] [] []).2 := hy
    rw [mem_missingYearsOf] at hy2
    show y ∈ missingYearsOf von bis (feiertageLoop subdivision n r2 A2 [] [] []).2
    rw [mem_missingYearsOf]
    refine ⟨hy2.1, fun hmem => hy2.2 ?_⟩
    rw [feiertageLoop_years_mem] at hmem ⊢
    rcases hmem with h | ⟨e, he, hrest⟩
    · cases h
    · exact Or.inr ⟨e, hAB2 e he, hrest⟩

/-- Witness for C7: the empty response versus a one-record response; the
superset's missing year 2026 (periods) / 2026 (holiday-days) is also
missing for the subset. -/
theorem missing_years_monotone_witness :
    2026 ∈ (fetchFerien (mkDate 2025 8 1) (mkDate 2026 9 30)
        (some ([] : List RawFerienEntry))).2
    ∧ 2026 ∈ (fetchFeiertage "DE-BY" true true (mkDate 2025 8 1) (mkDate 2026 9 30)
        (some ([] : List RawFeiertagEntry))).2 := by
  have h := missing_years_monotone (mkDate 2025 8 1) (mkDate 2026 9 30)
    [] [⟨[⟨some "DE", some "Sommerferien"⟩], some (mkDate 2025 6 23),
         some (mkDate 2025 8 5)⟩]
    "DE-BY" true true
    [] [⟨[⟨some "DE", some "Tag der Deutschen Einheit"⟩], some (mkDate 2025 10 3),
         true, []⟩]
    (fun e he => absurd he (List.not_mem_nil e))
    (fun e he => absurd he (List.not_mem_nil e))
  exact ⟨h.1 2026 (by decide), h.2 2026 (by decide)⟩

/-- C10: a requested year is reported missing whenever every parseable
holiday-day record of that year is excluded by the classification/toggle
filter — excluded records do not contribute to the observed-years set even
though the source returned them. -/
theorem excluded_records_leave_year_missing (subdivision : String) (n r2 : Bool)
    (von bis : Date) (data : List RawFeiertagEntry) (y : Nat)
    (h1 : von.year ≤ y) (h2 : y ≤ bis.year)
    (h3 : ∀ e ∈ data, e.startDate.map Date.year = some y →
      classifyFeiertag subdivision n r2 e = none) :
    y ∈ (fetchFeiertage subdivision n r2 von bis (some data)).2 := by
  show y ∈ missingYearsOf von bis (feiertageLoop subdivision n r2 data [] [] []).2
  rw [mem_missingYearsOf]
  refine ⟨⟨h1, h2⟩, fun hmem => ?_⟩
  rw [feiertageLoop_years_mem] at hmem
  rcases hmem with h | ⟨e, he, d, hd, hcls, rfl⟩
  · cases h
  · have := h3 e he (by rw [hd]; rfl)
    rw [this] at hcls
    cases hcls

/-- Witness for C10: with the national toggle off, a nationwide record of
2025 is excluded, so the requested year 2025 is reported missing although
the source returned a record for it. -/
theorem excluded_records_leave_year_missing_witness :
    2025 ∈ (fetchFeiertage "DE-BY" false true (mkDate 2025 1 1) (mkDate 2025 12 31)
        (some [⟨[⟨some "DE", some "Tag der Deutschen Einheit"⟩],
                some (mkDate 2025 10 3), true, []⟩])).2 :=
  excluded_records_leave_year_missing "DE-BY" false true (mkDate 2025 1 1)
    (mkDate 2025 12 31)
    [⟨[⟨some "DE", some "Tag der Deutschen Einheit"⟩], some (mkDate 2025 10 3), true, []⟩]
    2025 (by decide) (by decide) (by decide)

/-! ## Lemmas about the expanded free-day section (C8) -/

theorem Date.rd_inj {a b : Date} (h : a.rd = b.rd) : a = b := by
  cases a
  cases b
  simpa using h

theorem lookupKey_setKey_self : ∀ (m : List (Nat × String)) (k : Nat) (v : String),
    lookupKey (setKey m k v) k = some v := by
  intro m
  induction m with
  | nil =>
    intro k v
    simp [setKey, lookupKey]
  | cons p rest ih =>
    intro k v
    by_cases h : p.1 = k
    · rw [setKey, if_pos h, lookupKey, List.find?_cons_of_pos _ (by simp)]
      rfl
    · rw [setKey, if_neg h, lookupKey, List.find?_cons_of_neg _ (by simpa using h)]
      exact ih k v

theorem lookupKey_setKey_ne : ∀ (m : List (Nat × String)) (k k2 : Nat) (v : String),
    k2 ≠ k → lookupKey (setKey m k v) k2 = lookupKey m k2 := by
  intro m
  induction m with
  | nil =>
    intro k k2 v hne
    rw [setKey, lookupKey,
      List.find?_cons_of_neg _ (by simpa using fun h => hne h.symm)]
    rfl
  | cons p rest ih =>
    intro k k2 v hne
    by_cases h2 : p.1 = k2
    · have h : ¬ p.1 = k := fun hc => hne (by rw [← h2, hc])
      rw [setKey, if_neg h, lookupKey, lookupKey,
        List.find?_cons_of_pos _ (by simpa using h2),
        List.find?_cons_of_pos _ (by simpa using h2)]
    · by_cases h : p.1 = k
      · rw [setKey, if_pos h, lookupKey, lookupKey,
          List.find?_cons_of_neg _ (by simpa using fun hc => hne hc.symm),
          List.find?_cons_of_neg _ (by simpa using h2)]
      · rw [setKey, if_neg h, lookupKey, lookupKey,
          List.find?_cons_of_neg _ (by simpa using h2),
          List.find?_cons_of_neg _ (by simpa using h2)]
        exact ih k k2 v hne

theorem keys_setKey : ∀ (m : List (Nat × String)) (k : Nat) (v : String),
    (setKey m k v).map Prod.fst
      = if k ∈ m.map Prod.fst then m.map Prod.fst else m.map Prod.fst ++ [k] := by
  intro m
  induction m with
  | nil =>
    intro k v
    simp [setKey]
  | cons p rest ih =>
    intro k v
    by_cases h : p.1 = k
    · rw [setKey, if_pos h]
      simp [h]
    · rw [setKey, if_neg h]
      simp only [List.map_cons, ih, List.mem_cons]
      by_cases h2 : k ∈ rest.map Prod.fst
      · rw [if_pos h2, if_pos (Or.inr h2)]
      · rw [if_neg h2, if_neg (by rintro (h3 | h3); exact h h3.symm; exact h2 h3)]
        rfl

theorem nodup_keys_setKey (m : List (Nat × String)) (k : Nat) (v : String)
    (h : (m.map Prod.fst).Nodup) : ((setKey m k v).map Prod.fst).Nodup := by
  rw [keys_setKey]
  by_cases h2 : k ∈ m.map Prod.fst
  · rwa [if_pos h2]
  · rw [if_neg h2, List.nodup_append]
    exact ⟨h, List.nodup_singleton _, by
      intro a ha hb
      simp only [List.mem_singleton] at hb
      exact h2 (hb ▸ ha)⟩

theorem mem_keys_iff_lookup (m : List (Nat × String)) (k : Nat) :
    k ∈ m.map Prod.fst ↔ (lookupKey m k).isSome = true := by
  induction m with
  | nil => simp [lookupKey]
  | cons p rest ih =>
    by_cases h : p.1 = k
    · rw [lookupKey, List.find?_cons_of_pos _ (by simpa using h)]
      simp [h]
    · rw [lookupKey, List.find?_cons_of_neg _ (by simpa using h)]
      rw [List.map_cons, List.mem_cons]
      rw [lookupKey] at ih
      constructor
      · rintro (h2 | h2)
        · exact absurd h2.symm h
        · exact ih.mp h2
      · intro h2
        exact Or.inr (ih.mpr h2)

theorem mem_daysRange (s e d : Nat) : d ∈ daysRange s e ↔ s ≤ d ∧ d ≤ e := by
  rw [daysRange, List.mem_range'_1]
  omega

/-- The inner day loop of the Ferien half: after it runs for one period's
range, a date maps to the period's name iff it is a weekday in the range;
all other dates keep their previous binding. -/
theorem lookup_foldl_days (name : String) (d : Nat) :
    ∀ (days : List Nat) (m : List (Nat × String)),
      lookupKey (days.foldl
          (fun acc x => if (x + 2) % 7 < 5 then setKey acc x name else acc) m) d
        = if d ∈ days ∧ (d + 2) % 7 < 5 then some name else lookupKey m d := by
  intro days
  induction days with
  | nil =>
    intro m
    simp
  | cons x xs ih =>
    intro m
    rw [List.foldl_cons, ih]
    by_cases hmem : d ∈ xs ∧ (d + 2) % 7 < 5
    · rw [if_pos hmem, if_pos ⟨List.mem_cons_of_mem x hmem.1, hmem.2⟩]
    · rw [if_neg hmem]
      by_cases hx : d = x
      · subst hx
        by_cases hw : (d + 2) % 7 < 5
        · rw [if_pos hw, if_pos ⟨List.mem_cons_self d xs, hw⟩]
          exact lookupKey_setKey_self m d name
        · have hnotc : ¬(d ∈ d :: xs ∧ (d + 2) % 7 < 5) := fun hc => hw hc.2
          rw [if_neg hw, if_neg hnotc]
      · have hnotc : ¬(d ∈ x :: xs ∧ (d + 2) % 7 < 5) := by
          rintro ⟨h1, h2⟩
          rcases List.mem_cons.mp h1 with h3 | h3
          · exact hx h3
          · exact hmem ⟨h3, h2⟩
        rw [if_neg hnotc]
        by_cases hw : (x + 2) % 7 < 5
        · rw [if_pos hw]
          exact lookupKey_setKey_ne m x d name hx
        · rw [if_neg hw]

/-- After the Ferien half of the expansion, a date maps to the name of the
unique period it is a weekday of (periods pairwise disjoint), else keeps
its previous binding. -/
theorem lookup_foldl_ferien (d : Nat) :
    ∀ (l : List FerienDict) (m : List (Nat × String)),
      l.Pairwise ferienDisjoint →
      lookupKey (l.foldl addFerienTage m) d
        = match l.find? (fun f => decide (coversWkd d f)) with
          | some f => some f.name
          | none => lookupKey m d := by
  intro l
  induction l with
  | nil =>
    intro m _
    rfl
  | cons f rest ih =>
    intro m hpw
    rcases List.pairwise_cons.mp hpw with ⟨hdisj, hrest⟩
    rw [List.foldl_cons, ih _ hrest]
    by_cases hf : coversWkd d f
    · rw [List.find?_cons_of_pos _ (by simpa using hf)]
      have hnone : rest.find? (fun g => decide (coversWkd d g)) = none := by
        rw [List.find?_eq_none]
        intro g hg hcov
        rcases hdisj g hg with h2 | h2
        · have hc : coversWkd d g := by simpa using hcov
          rcases hf with ⟨hf1, hf2, _⟩
          rcases hc with ⟨hc1, hc2, _⟩
          omega
        · have hc : coversWkd d g := by simpa using hcov
          rcases hf with ⟨hf1, hf2, _⟩
          rcases hc with ⟨hc1, hc2, _⟩
          omega
      rw [hnone]
      show lookupKey (addFerienTage m f) d = some f.name
      rw [addFerienTage, lookup_foldl_days,
        if_pos ⟨(mem_daysRange _ _ _).mpr ⟨hf.1, hf.2.1⟩, hf.2.2⟩]
    · rw [List.find?_cons_of_neg _ (by simpa using hf)]
      cases hfind : rest.find? (fun g => decide (coversWkd d g)) with
      | some g => rfl
      | none =>
        show lookupKey (addFerienTage m f) d = lookupKey m d
        rw [addFerienTage, lookup_foldl_days, if_neg ?_]
        rintro ⟨h1, h2⟩
        exact hf ⟨((mem_daysRange _ _ _).mp h1).1, ((mem_daysRange _ _ _).mp h1).2, h2⟩

/-- After the Feiertage half of the expansion, the date of the unique
holiday-day (dates pairwise distinct) maps to the concatenated reason when
the date was already bound, else to the holiday name; other dates keep
their binding. -/
theorem lookup_foldl_feiertage (d : Nat) :
    ∀ (l : List FeiertagDict) (m : List (Nat × String)),
      l.Pairwise (fun a b => a.datum ≠ b.datum) →
      lookupKey (l.foldl addFeiertagTag m) d
        = match l.find? (fun ft => decide (ft.datum.rd = d)) with
          | some ft =>
            some (match lookupKey m d with
              | some old => old ++ " / " ++ ft.name
              | none => ft.name)
          | none => lookupKey m d := by
  intro l
  induction l with
  | nil =>
    intro m _
    rfl
  | cons ft rest ih =>
    intro m hpw
    rcases List.pairwise_cons.mp hpw with ⟨hne, hrest⟩
    rw [List.foldl_cons, ih _ hrest]
    by_cases hd : ft.datum.rd = d
    · rw [List.find?_cons_of_pos _ (by simpa using hd)]
      have hnone : rest.find? (fun g => decide (g.datum.rd = d)) = none := by
        rw [List.find?_eq_none]
        intro g hg hgd
        have hgd2 : g.datum.rd = d := by simpa using hgd
        exact hne g hg (Date.rd_inj (by rw [hd, hgd2]))
      rw [hnone]
      show lookupKey (addFeiertagTag m ft) d = _
      rw [addFeiertagTag]
      cases hm : lookupKey m ft.datum.rd with
      | some old =>
        rw [hd] at hm
        rw [hm]
        exact hd ▸ lookupKey_setKey_self m ft.datum.rd _
      | none =>
        rw [hd] at hm
        rw [hm]
        exact hd ▸ lookupKey_setKey_self m ft.datum.rd _
    · rw [List.find?_cons_of_neg _ (by simpa using hd)]
      have hkeep : lookupKey (addFeiertagTag m ft) d = lookupKey m d := by
        rw [addFeiertagTag]
        cases lookupKey m ft.datum.rd with
        | some old => exact lookupKey_setKey_ne m ft.datum.rd d _ (fun h => hd h.symm)
        | none => exact lookupKey_setKey_ne m ft.datum.rd d _ (fun h => hd h.symm)
      cases rest.find? (fun g => decide (g.datum.rd = d)) with
      | some g =>
        rw [hkeep]
      | none =>
        exact hkeep

theorem nodup_keys_foldl_days (name : String) :
    ∀ (days : List Nat) (m : List (Nat × String)), (m.map Prod.fst).Nodup →
      (((days.foldl
          (fun acc x => if (x + 2) % 7 < 5 then setKey acc x name else acc) m)).map
        Prod.fst).Nodup := by
  intro days
  induction days with
  | nil => intro m h; exact h
  | cons x xs ih =>
    intro m h
    rw [List.foldl_cons]
    refine ih _ ?_
    by_cases hw : (x + 2) % 7 < 5
    · rw [if_pos hw]
      exact nodup_keys_setKey m x name h
    · rwa [if_neg hw]

theorem nodup_keys_foldl_ferien :
    ∀ (l : List FerienDict) (m : List (Nat × String)), (m.map Prod.fst).Nodup →
      ((l.foldl addFerienTage m).map Prod.fst).Nodup := by
  intro l
  induction l with
  | nil => intro m h; exact h
  | cons f rest ih =>
    intro m h
    rw [List.foldl_cons]
    exact ih _ (nodup_keys_foldl_days f.name _ m h)

theorem nodup_keys_foldl_feiertage :
    ∀ (l : List FeiertagDict) (m : List (Nat × String)), (m.map Prod.fst).Nodup →
      ((l.foldl addFeiertagTag m).map Prod.fst).Nodup := by
  intro l
  induction l with
  | nil => intro m h; exact h
  | cons ft rest ih =>
    intro m h
    rw [List.foldl_cons]
    refine ih _ ?_
    rw [addFeiertagTag]
    cases lookupKey m ft.datum.rd with
    | some old => exact nodup_keys_setKey m ft.datum.rd _ h
    | none => exact nodup_keys_setKey m ft.datum.rd _ h

theorem nodup_keys_alleTage (ferien : List FerienDict) (feiertage : List FeiertagDict) :
    ((alleTage ferien feiertage).map Prod.fst).Nodup :=
  nodup_keys_foldl_feiertage feiertage _
    (nodup_keys_foldl_ferien ferien [] List.nodup_nil)

theorem find?_eq_self_of_mem :
    ∀ (l : List Nat) (d : Nat),
      l.find? (fun k => decide (k = d)) = if d ∈ l then some d else none := by
  intro l
  induction l with
  | nil => intro d; simp
  | cons x xs ih =>
    intro d
    by_cases h : x = d
    · subst h
      rw [List.find?_cons_of_pos _ (by simp), if_pos (List.mem_cons_self x xs)]
    · rw [List.find?_cons_of_neg _ (by simpa using h), ih]
      by_cases h2 : d ∈ xs
      · rw [if_pos h2, if_pos (List.mem_cons_of_mem x h2)]
      · rw [if_neg h2, if_neg (by
          intro hc
          rcases List.mem_cons.mp hc with h3 | h3
          · exact h h3.symm
          · exact h2 h3)]

/-- The reason the expanded section records at `d` is the `alle_tage` dict
binding of `d`. -/
theorem grundAt_alleFreienTage (ferien : List FerienDict)
    (feiertage : List FeiertagDict) (d : Nat) :
    grundAt (alleFreienTage ferien feiertage) d
      = lookupKey (alleTage ferien feiertage) d := by
  simp only [alleFreienTage, grundAt, List.find?_map]
  have hcomp : ((fun t : FreierTag => decide (t.datum = d)) ∘
      (fun k : Nat => (⟨k, WOCHENTAGE.getD ((k + 2) % 7) "",
        (lookupKey (alleTage ferien feiertage) k).getD ""⟩ : FreierTag)))
      = fun k : Nat => decide (k = d) := rfl
  rw [hcomp, find?_eq_self_of_mem]
  have hperm := List.perm_insertionSort (fun a b : Nat => a ≤ b)
    ((alleTage ferien feiertage).map Prod.fst)
  by_cases hmem : d ∈ (alleTage ferien feiertage).map Prod.fst
  · rw [if_pos (hperm.mem_iff.mpr hmem)]
    have hsome := (mem_keys_iff_lookup _ d).mp hmem
    cases hlk : lookupKey (alleTage ferien feiertage) d with
    | none => rw [hlk] at hsome; cases hsome
    | some v => simp [hlk]
  · rw [if_neg (fun hc => hmem (hperm.mem_iff.mp hc))]
    have hnone := Option.not_isSome_iff_eq_none.mp
      (fun hc => hmem ((mem_keys_iff_lookup _ d).mpr hc))
    rw [hnone]
    rfl

theorem alleFreienTage_map_datum (ferien : List FerienDict)
    (feiertage : List FeiertagDict) :
    (alleFreienTage ferien feiertage).map FreierTag.datum
      = List.insertionSort (fun a b : Nat => a ≤ b)
          ((alleTage ferien feiertage).map Prod.fst) := by
  simp only [alleFreienTage, List.map_map]
  exact List.map_id _

/-- C8 counterexample: the period `P` runs Friday 2025-08-01 to Monday
2025-08-04 and the holiday-day `F` falls on Saturday 2025-08-02, a date
covered by both the period's range and the holiday-day; the claim requires
the concatenated reason `"P / F"`, but weekends are excluded from the
period expansion, so the entry's reason is `"F"` alone. -/
theorem expanded_free_days_counterexample :
    grundAt (alleFreienTage [⟨"P", mkDate 2025 8 1, mkDate 2025 8 4⟩]
        [⟨"F", mkDate 2025 8 2, "Samstag", "national"⟩]) (mkDate 2025 8 2).rd
      = some "F"
    ∧ (⟨"P", mkDate 2025 8 1, mkDate 2025 8 4⟩ : FerienDict).start ≤ mkDate 2025 8 2
    ∧ mkDate 2025 8 2 ≤ (⟨"P", mkDate 2025 8 1, mkDate 2025 8 4⟩ : FerienDict).ende
    ∧ (⟨"F", mkDate 2025 8 2, "Samstag", "national"⟩ : FeiertagDict).datum
        = mkDate 2025 8 2
    ∧ some "F" ≠ some ("P" ++ " / " ++ "F") :=
  ⟨by decide, by decide, by decide, by decide, by decide⟩

/-- C8 amended: for pairwise-disjoint periods and pairwise-distinct
holiday-day dates, the expanded section is sorted ascending by date with
pairwise-distinct dates, and the reason at each date `d` is: the owning
period's name for a Monday-to-Friday date inside a period, the
concatenation `"<period-name> / <holiday-name>"` when such a date is also a
holiday-day, the plain holiday name for every other holiday-day date
(including weekend dates inside a period, where no concatenation happens),
and absent otherwise. -/
theorem expanded_free_days (ferien : List FerienDict) (feiertage : List FeiertagDict)
    (hdisj : ferien.Pairwise ferienDisjoint)
    (hdates : feiertage.Pairwise (fun a b => a.datum ≠ b.datum)) :
    List.Sorted (fun a b : Nat => a ≤ b)
      ((alleFreienTage ferien feiertage).map FreierTag.datum)
    ∧ ((alleFreienTage ferien feiertage).map FreierTag.datum).Nodup
    ∧ ∀ d : Nat, grundAt (alleFreienTage ferien feiertage) d =
        match ferien.find? (fun f => decide (coversWkd d f)),
              feiertage.find? (fun ft => decide (ft.datum.rd = d)) with
        | some f, some ft => some (f.name ++ " / " ++ ft.name)
        | some f, none => some f.name
        | none, some ft => some ft.name
        | none, none => none := by
  refine ⟨?_, ?_, fun d => ?_⟩
  · rw [alleFreienTage_map_datum]
    exact List.sorted_insertionSort _ _
  · rw [alleFreienTage_map_datum]
    exact (List.perm_insertionSort _ _).nodup_iff.mpr
      (nodup_keys_alleTage ferien feiertage)
  · rw [grundAt_alleFreienTage]
    show lookupKey (feiertage.foldl addFeiertagTag (ferien.foldl addFerienTage [])) d
      = _
    rw [lookup_foldl_feiertage d feiertage _ hdates,
      lookup_foldl_ferien d ferien [] hdisj]
    cases feiertage.find? (fun ft => decide (ft.datum.rd = d)) with
    | some ft =>
      cases ferien.find? (fun f => decide (coversWkd d f)) with
      | some f => rfl
      | none => rfl
    | none =>
      cases ferien.find? (fun f => decide (coversWkd d f)) with
      | some f => rfl
      | none => rfl

/-- Witness for the amended C8: the Monday 2025-08-04 is a weekday of `P`
and also the holiday-day `F2`, so the reason concatenates. -/
theorem expanded_free_days_witness :
    grundAt (alleFreienTage [⟨"P", mkDate 2025 8 1, mkDate 2025 8 4⟩]
        [⟨"F2", mkDate 2025 8 4, "Montag", "national"⟩]) (mkDate 2025 8 4).rd
      = some ("P" ++ " / " ++ "F2") := by
  have h := (expanded_free_days [⟨"P", mkDate 2025 8 1, mkDate 2025 8 4⟩]
      [⟨"F2", mkDate 2025 8 4, "Montag", "national"⟩]
      (by decide) (by decide)).2.2 (mkDate 2025 8 4).rd
  rw [h]
  decide

end DeutscheFerien
